import Mathlib

/-!
Verification of the color subsystem of the typst repository
(crates/typst-library/src/visualize/color): the `Color` tagged union, the
conversion engine (`to_space` and friends, convert.rs), the CMYK formulas
(cmyk.rs), the mixing engine (mix.rs), alpha scaling, equality/hashing and
the hex codec (mod.rs, convert.rs).

Channels are 32-bit floats in the source.  They are embedded as exact
rationals together with the explicit NaN ("missing component") sentinel,
`Flt`; arithmetic on `Flt` mirrors IEEE NaN propagation and Rust's
NaN-related conventions for `max`, `clamp`, comparisons and `round`/`as u8`
casts.  The cross-space colorimetric formulas live in the external `palette`
crate (and the CMYK→RGB transform in the external `qcms` crate), not in this
repository; they are kept abstract as the fields of a `Palette` bundle.
Every function of the repository itself is translated concretely.
-/

namespace Typst

/-- A 32-bit float channel: either the NaN "missing" sentinel or an exact
finite value.  (Infinities never arise in the embedded operations: every
division in the sources is guarded so that its denominator is nonzero.) -/
inductive Flt where
  | nan : Flt
  | fin : ℚ → Flt
deriving DecidableEq, Repr

namespace Flt

/-- Rust `f32::is_nan`. -/
def isNan : Flt → Bool
  | nan => true
  | fin _ => false

/-- IEEE addition: NaN propagates. -/
def add : Flt → Flt → Flt
  | fin a, fin b => fin (a + b)
  | _, _ => nan

/-- IEEE subtraction: NaN propagates. -/
def sub : Flt → Flt → Flt
  | fin a, fin b => fin (a - b)
  | _, _ => nan

/-- IEEE multiplication: NaN propagates. -/
def mul : Flt → Flt → Flt
  | fin a, fin b => fin (a * b)
  | _, _ => nan

/-- IEEE division: NaN propagates.  A zero denominator (which would give an
infinity in IEEE arithmetic) is mapped to the missing sentinel; both
divisions of the embedded sources (`Cmyk::from_rgba` and `mix_iter`) guard
their denominator away from zero, so this case is never exercised. -/
def div : Flt → Flt → Flt
  | fin a, fin b => if b = 0 then nan else fin (a / b)
  | _, _ => nan

/-- Rust `f32::max`: returns the other operand if one is NaN. -/
def max : Flt → Flt → Flt
  | nan, b => b
  | a, nan => a
  | fin a, fin b => fin (a ⊔ b)

/-- Rust `f32::abs`: NaN maps to NaN. -/
def abs : Flt → Flt
  | nan => nan
  | fin a => fin (|a|)

/-- IEEE `<`: false whenever an operand is NaN. -/
def ltB : Flt → Flt → Bool
  | fin a, fin b => decide (a < b)
  | _, _ => false

/-- IEEE `<=`: false whenever an operand is NaN. -/
def leB : Flt → Flt → Bool
  | fin a, fin b => decide (a ≤ b)
  | _, _ => false

/-- IEEE `>`. -/
def gtB (a b : Flt) : Bool := ltB b a

/-- IEEE `==`: false whenever an operand is NaN. -/
def eqB : Flt → Flt → Bool
  | fin a, fin b => decide (a = b)
  | _, _ => false

/-- Rust `f32::clamp(lo, hi)`: NaN stays NaN. -/
def clamp (x : Flt) (lo hi : ℚ) : Flt :=
  match x with
  | nan => nan
  | fin a => fin (min (Max.max a lo) hi)

/-- Rust `f32::rem_euclid(360.0)` on a finite value; NaN stays NaN. -/
def remEuclid360 : Flt → Flt
  | nan => nan
  | fin a => fin (a - 360 * ⌊a / 360⌋)

end Flt

/-- Rust `f32::round`: nearest integer, ties away from zero. -/
def rustRound (q : ℚ) : ℤ :=
  if 0 ≤ q then ⌊q + 1 / 2⌋ else -⌊-q + 1 / 2⌋

/-- Rust `(x * 255.0).round() as u8`: the saturating float-to-u8 cast maps
NaN to 0, values below 0 to 0 and values above 255 to 255. -/
def Flt.toU8 (x : Flt) : ℕ :=
  match x.mul (fin 255) with
  | nan => 0
  | fin q => (min (Max.max (rustRound q) 0) 255).toNat

/-- The `[f32; 4]` export vector of a color. -/
structure Vec4 where
  v0 : Flt
  v1 : Flt
  v2 : Flt
  v3 : Flt
deriving DecidableEq, Repr

/-- Indexing into the export vector. -/
def Vec4.get (m : Vec4) : Fin 4 → Flt
  | 0 => m.v0
  | 1 => m.v1
  | 2 => m.v2
  | 3 => m.v3

/-- Updating one entry of the export vector. -/
def Vec4.set (m : Vec4) : Fin 4 → Flt → Vec4
  | 0, x => { m with v0 := x }
  | 1, x => { m with v1 := x }
  | 2, x => { m with v2 := x }
  | 3, x => { m with v3 := x }

/-- `palette::luma::Lumaa<Srgb, f32>`. -/
structure LumaC where
  luma : Flt
  alpha : Flt
deriving DecidableEq, Repr

/-- `palette::oklab::Oklaba<f32>`. -/
structure OklabC where
  l : Flt
  a : Flt
  b : Flt
  alpha : Flt
deriving DecidableEq, Repr

/-- `palette::oklch::Oklcha<f32>`: the hue is stored as raw degrees
(`OklabHue` wraps the degree value; `into_degrees` reads it back). -/
structure OklchC where
  l : Flt
  chroma : Flt
  hue : Flt
  alpha : Flt
deriving DecidableEq, Repr

/-- `palette::rgb::Rgba<Srgb, f32>` (gamma-encoded sRGB). -/
structure RgbC where
  red : Flt
  green : Flt
  blue : Flt
  alpha : Flt
deriving DecidableEq, Repr

/-- `palette::rgb::Rgba<Linear<Srgb>, f32>`. -/
structure LinearRgbC where
  red : Flt
  green : Flt
  blue : Flt
  alpha : Flt
deriving DecidableEq, Repr

/-- The repository's own `Cmyk` struct (cmyk.rs). -/
structure CmykC where
  c : Flt
  m : Flt
  y : Flt
  k : Flt
deriving DecidableEq, Repr

/-- `palette::hsl::Hsla<Srgb, f32>`; the hue is stored as raw degrees. -/
structure HslC where
  hue : Flt
  saturation : Flt
  lightness : Flt
  alpha : Flt
deriving DecidableEq, Repr

/-- `palette::hsv::Hsva<Srgb, f32>`; the hue is stored as raw degrees. -/
structure HsvC where
  hue : Flt
  saturation : Flt
  value : Flt
  alpha : Flt
deriving DecidableEq, Repr

/-- The 8-variant `Color` tagged union (mod.rs). -/
inductive Color where
  | Luma : LumaC → Color
  | Oklab : OklabC → Color
  | Oklch : OklchC → Color
  | Rgb : RgbC → Color
  | LinearRgb : LinearRgbC → Color
  | Cmyk : CmykC → Color
  | Hsl : HslC → Color
  | Hsv : HsvC → Color
deriving DecidableEq, Repr

/-- The `ColorSpace` tag enumeration (mod.rs). -/
inductive ColorSpace where
  | Oklab
  | Oklch
  | Srgb
  | D65Gray
  | LinearRgb
  | Hsl
  | Hsv
  | Cmyk
deriving DecidableEq, Repr

/-- `ColorSpace::hue_index`: the channel index holding a hue angle. -/
def ColorSpace.hueIndex : ColorSpace → Option (Fin 4)
  | .Hsl | .Hsv => some 0
  | .Oklch => some 2
  | _ => none

/-- `Color::space`. -/
def Color.space : Color → ColorSpace
  | .Luma _ => .D65Gray
  | .Oklab _ => .Oklab
  | .Oklch _ => .Oklch
  | .LinearRgb _ => .LinearRgb
  | .Rgb _ => .Srgb
  | .Cmyk _ => .Cmyk
  | .Hsl _ => .Hsl
  | .Hsv _ => .Hsv

/-- `Color::to_vec4` (convert.rs): the canonical 4-float export with hue
channels reduced to `[0, 360)` by `rem_euclid(360.0)`. -/
def Color.toVec4 : Color → Vec4
  | .Luma c => ⟨c.luma, c.luma, c.luma, c.alpha⟩
  | .Oklab c => ⟨c.l, c.a, c.b, c.alpha⟩
  | .Oklch c => ⟨c.l, c.chroma, c.hue.remEuclid360, c.alpha⟩
  | .Rgb c => ⟨c.red, c.green, c.blue, c.alpha⟩
  | .LinearRgb c => ⟨c.red, c.green, c.blue, c.alpha⟩
  | .Cmyk c => ⟨c.c, c.m, c.y, c.k⟩
  | .Hsl c => ⟨c.hue.remEuclid360, c.saturation, c.lightness, c.alpha⟩
  | .Hsv c => ⟨c.hue.remEuclid360, c.saturation, c.value, c.alpha⟩

/-- `Color::to_vec4_u8` (convert.rs): `self.to_vec4().map(|x| (x * 255.0).round() as u8)`,
presented channel by channel. -/
def Color.toVec4U8 (c : Color) (i : Fin 4) : ℕ :=
  (c.toVec4.get i).toU8

/-- The colorimetric conversion functions of the external `palette` crate
(`FromColor` instances, `Rgb::from_linear`, `Rgb::into_linear`) and the
`qcms` CMYK-to-sRGB byte transform, kept abstract: they are not code of this
repository.  A field `xOfY` stands for `X::from_color(y)`.  The repository's
conversion routing (convert.rs) is defined over an arbitrary bundle. -/
structure Palette where
  lumaOfOklab : OklabC → LumaC
  lumaOfOklch : OklchC → LumaC
  lumaOfRgb : RgbC → LumaC
  lumaOfLinearRgb : LinearRgbC → LumaC
  lumaOfHsl : HslC → LumaC
  lumaOfHsv : HsvC → LumaC
  oklabOfLuma : LumaC → OklabC
  oklabOfOklch : OklchC → OklabC
  oklabOfRgb : RgbC → OklabC
  oklabOfLinearRgb : LinearRgbC → OklabC
  oklabOfHsl : HslC → OklabC
  oklabOfHsv : HsvC → OklabC
  oklchOfLuma : LumaC → OklchC
  oklchOfOklab : OklabC → OklchC
  oklchOfRgb : RgbC → OklchC
  oklchOfLinearRgb : LinearRgbC → OklchC
  oklchOfHsl : HslC → OklchC
  oklchOfHsv : HsvC → OklchC
  rgbOfLuma : LumaC → RgbC
  rgbOfOklab : OklabC → RgbC
  rgbOfOklch : OklchC → RgbC
  rgbOfLinear : LinearRgbC → RgbC
  rgbOfHsl : HslC → RgbC
  rgbOfHsv : HsvC → RgbC
  linearOfLuma : LumaC → LinearRgbC
  linearOfOklab : OklabC → LinearRgbC
  linearOfOklch : OklchC → LinearRgbC
  linearOfRgb : RgbC → LinearRgbC
  hslOfLuma : LumaC → HslC
  hslOfOklab : OklabC → HslC
  hslOfOklch : OklchC → HslC
  hslOfRgb : RgbC → HslC
  hslOfHsv : HsvC → HslC
  hsvOfLuma : LumaC → HsvC
  hsvOfOklab : OklabC → HsvC
  hsvOfOklch : OklchC → HsvC
  hsvOfRgb : RgbC → HsvC
  hsvOfHsl : HslC → HsvC
  qcms : ℕ → ℕ → ℕ → ℕ → ℕ × ℕ × ℕ

/-- A throwaway bundle used to evaluate the development at concrete inputs
(every theorem below that mentions a `Palette` holds for all bundles). -/
def Palette.dummy : Palette where
  lumaOfOklab _ := ⟨.fin 0, .fin 0⟩
  lumaOfOklch _ := ⟨.fin 0, .fin 0⟩
  lumaOfRgb _ := ⟨.fin 0, .fin 0⟩
  lumaOfLinearRgb _ := ⟨.fin 0, .fin 0⟩
  lumaOfHsl _ := ⟨.fin 0, .fin 0⟩
  lumaOfHsv _ := ⟨.fin 0, .fin 0⟩
  oklabOfLuma _ := ⟨.fin 0, .fin 0, .fin 0, .fin 0⟩
  oklabOfOklch _ := ⟨.fin 0, .fin 0, .fin 0, .fin 0⟩
  oklabOfRgb _ := ⟨.fin 0, .fin 0, .fin 0, .fin 0⟩
  oklabOfLinearRgb _ := ⟨.fin 0, .fin 0, .fin 0, .fin 0⟩
  oklabOfHsl _ := ⟨.fin 0, .fin 0, .fin 0, .fin 0⟩
  oklabOfHsv _ := ⟨.fin 0, .fin 0, .fin 0, .fin 0⟩
  oklchOfLuma _ := ⟨.fin 0, .fin 0, .fin 0, .fin 0⟩
  oklchOfOklab _ := ⟨.fin 0, .fin 0, .fin 0, .fin 0⟩
  oklchOfRgb _ := ⟨.fin 0, .fin 0, .fin 0, .fin 0⟩
  oklchOfLinearRgb _ := ⟨.fin 0, .fin 0, .fin 0, .fin 0⟩
  oklchOfHsl _ := ⟨.fin 0, .fin 0, .fin 0, .fin 0⟩
  oklchOfHsv _ := ⟨.fin 0, .fin 0, .fin 0, .fin 0⟩
  rgbOfLuma _ := ⟨.fin 0, .fin 0, .fin 0, .fin 0⟩
  rgbOfOklab _ := ⟨.fin 0, .fin 0, .fin 0, .fin 0⟩
  rgbOfOklch _ := ⟨.fin 0, .fin 0, .fin 0, .fin 0⟩
  rgbOfLinear _ := ⟨.fin 0, .fin 0, .fin 0, .fin 0⟩
  rgbOfHsl _ := ⟨.fin 0, .fin 0, .fin 0, .fin 0⟩
  rgbOfHsv _ := ⟨.fin 0, .fin 0, .fin 0, .fin 0⟩
  linearOfLuma _ := ⟨.fin 0, .fin 0, .fin 0, .fin 0⟩
  linearOfOklab _ := ⟨.fin 0, .fin 0, .fin 0, .fin 0⟩
  linearOfOklch _ := ⟨.fin 0, .fin 0, .fin 0, .fin 0⟩
  linearOfRgb _ := ⟨.fin 0, .fin 0, .fin 0, .fin 0⟩
  hslOfLuma _ := ⟨.fin 0, .fin 0, .fin 0, .fin 0⟩
  hslOfOklab _ := ⟨.fin 0, .fin 0, .fin 0, .fin 0⟩
  hslOfOklch _ := ⟨.fin 0, .fin 0, .fin 0, .fin 0⟩
  hslOfRgb _ := ⟨.fin 0, .fin 0, .fin 0, .fin 0⟩
  hslOfHsv _ := ⟨.fin 0, .fin 0, .fin 0, .fin 0⟩
  hsvOfLuma _ := ⟨.fin 0, .fin 0, .fin 0, .fin 0⟩
  hsvOfOklab _ := ⟨.fin 0, .fin 0, .fin 0, .fin 0⟩
  hsvOfOklch _ := ⟨.fin 0, .fin 0, .fin 0, .fin 0⟩
  hsvOfRgb _ := ⟨.fin 0, .fin 0, .fin 0, .fin 0⟩
  hsvOfHsl _ := ⟨.fin 0, .fin 0, .fin 0, .fin 0⟩
  qcms _ _ _ _ := (0, 0, 0)

/-- `Cmyk::from_luma` (cmyk.rs): the approximate gray-component-replacement
formula `l = 1 - luma; (0.75 l, 0.68 l, 0.67 l, 0.90 l)`. -/
def CmykC.fromLuma (c : LumaC) : CmykC :=
  let l := (Flt.fin 1).sub c.luma
  ⟨l.mul (.fin (75 / 100)), l.mul (.fin (68 / 100)),
   l.mul (.fin (67 / 100)), l.mul (.fin (90 / 100))⟩

/-- `Cmyk::from_rgba` (cmyk.rs): the naive RGB→CMYK formula with the
`k == 1.0` guard that avoids the division by zero. -/
def CmykC.fromRgba (rgba : RgbC) : CmykC :=
  let r := rgba.red
  let g := rgba.green
  let b := rgba.blue
  let k := (Flt.fin 1).sub ((r.max g).max b)
  if k.eqB (.fin 1) then ⟨.fin 0, .fin 0, .fin 0, .fin 1⟩
  else
    let c := ((Flt.fin 1).sub r |>.sub k).div ((Flt.fin 1).sub k)
    let m := ((Flt.fin 1).sub g |>.sub k).div ((Flt.fin 1).sub k)
    let y := ((Flt.fin 1).sub b |>.sub k).div ((Flt.fin 1).sub k)
    ⟨c, m, y, k⟩

/-- `Cmyk::to_rgba` (cmyk.rs): quantize the four ink channels to bytes,
push them through the qcms perceptual transform, divide the three output
bytes by 255 and set alpha to 1. -/
def CmykC.toRgba (P : Palette) (c : CmykC) : RgbC :=
  let d := P.qcms c.c.toU8 c.m.toU8 c.y.toU8 c.k.toU8
  ⟨.fin ((d.1 : ℚ) / 255), .fin ((d.2.1 : ℚ) / 255), .fin ((d.2.2 : ℚ) / 255), .fin 1⟩

/-- `Color::to_luma` (convert.rs). -/
def Color.toLuma (P : Palette) : Color → Color
  | .Luma c => .Luma c
  | .Oklab c => .Luma (P.lumaOfOklab c)
  | .Oklch c => .Luma (P.lumaOfOklch c)
  | .Rgb c => .Luma (P.lumaOfRgb c)
  | .LinearRgb c => .Luma (P.lumaOfLinearRgb c)
  | .Cmyk c => .Luma (P.lumaOfRgb (c.toRgba P))
  | .Hsl c => .Luma (P.lumaOfHsl c)
  | .Hsv c => .Luma (P.lumaOfHsv c)

/-- `Color::to_oklab` (convert.rs). -/
def Color.toOklab (P : Palette) : Color → Color
  | .Luma c => .Oklab (P.oklabOfLuma c)
  | .Oklab c => .Oklab c
  | .Oklch c => .Oklab (P.oklabOfOklch c)
  | .Rgb c => .Oklab (P.oklabOfRgb c)
  | .LinearRgb c => .Oklab (P.oklabOfLinearRgb c)
  | .Cmyk c => .Oklab (P.oklabOfRgb (c.toRgba P))
  | .Hsl c => .Oklab (P.oklabOfHsl c)
  | .Hsv c => .Oklab (P.oklabOfHsv c)

/-- `Color::to_oklch` (convert.rs). -/
def Color.toOklch (P : Palette) : Color → Color
  | .Luma c => .Oklch (P.oklchOfLuma c)
  | .Oklab c => .Oklch (P.oklchOfOklab c)
  | .Oklch c => .Oklch c
  | .Rgb c => .Oklch (P.oklchOfRgb c)
  | .LinearRgb c => .Oklch (P.oklchOfLinearRgb c)
  | .Cmyk c => .Oklch (P.oklchOfRgb (c.toRgba P))
  | .Hsl c => .Oklch (P.oklchOfHsl c)
  | .Hsv c => .Oklch (P.oklchOfHsv c)

/-- `Color::to_rgb` (convert.rs).  `Rgb::from_color` applied to the Rgb
result of `Cmyk::to_rgba` is the identity conversion of `palette`. -/
def Color.toRgb (P : Palette) : Color → Color
  | .Luma c => .Rgb (P.rgbOfLuma c)
  | .Oklab c => .Rgb (P.rgbOfOklab c)
  | .Oklch c => .Rgb (P.rgbOfOklch c)
  | .Rgb c => .Rgb c
  | .LinearRgb c => .Rgb (P.rgbOfLinear c)
  | .Cmyk c => .Rgb (c.toRgba P)
  | .Hsl c => .Rgb (P.rgbOfHsl c)
  | .Hsv c => .Rgb (P.rgbOfHsv c)

/-- `Color::to_linear_rgb` (convert.rs); `Rgb::into_linear` is the same
`palette` conversion as `LinearRgb::from_color` on an Rgb value. -/
def Color.toLinearRgb (P : Palette) : Color → Color
  | .Luma c => .LinearRgb (P.linearOfLuma c)
  | .Oklab c => .LinearRgb (P.linearOfOklab c)
  | .Oklch c => .LinearRgb (P.linearOfOklch c)
  | .Rgb c => .LinearRgb (P.linearOfRgb c)
  | .LinearRgb c => .LinearRgb c
  | .Cmyk c => .LinearRgb (P.linearOfRgb (c.toRgba P))
  | .Hsl c => .LinearRgb (P.linearOfRgb (P.rgbOfHsl c))
  | .Hsv c => .LinearRgb (P.linearOfRgb (P.rgbOfHsv c))

/-- `Color::to_cmyk` (convert.rs): every non-Cmyk source is funneled through
Rgb and the naive `Cmyk::from_rgba` (Luma through `Cmyk::from_luma`). -/
def Color.toCmyk (P : Palette) : Color → Color
  | .Luma c => .Cmyk (.fromLuma c)
  | .Oklab c => .Cmyk (.fromRgba (P.rgbOfOklab c))
  | .Oklch c => .Cmyk (.fromRgba (P.rgbOfOklch c))
  | .Rgb c => .Cmyk (.fromRgba c)
  | .LinearRgb c => .Cmyk (.fromRgba (P.rgbOfLinear c))
  | .Cmyk c => .Cmyk c
  | .Hsl c => .Cmyk (.fromRgba (P.rgbOfHsl c))
  | .Hsv c => .Cmyk (.fromRgba (P.rgbOfHsv c))

/-- `Color::to_hsl` (convert.rs). -/
def Color.toHsl (P : Palette) : Color → Color
  | .Luma c => .Hsl (P.hslOfLuma c)
  | .Oklab c => .Hsl (P.hslOfOklab c)
  | .Oklch c => .Hsl (P.hslOfOklch c)
  | .Rgb c => .Hsl (P.hslOfRgb c)
  | .LinearRgb c => .Hsl (P.hslOfRgb (P.rgbOfLinear c))
  | .Cmyk c => .Hsl (P.hslOfRgb (c.toRgba P))
  | .Hsl c => .Hsl c
  | .Hsv c => .Hsl (P.hslOfHsv c)

/-- `Color::to_hsv` (convert.rs). -/
def Color.toHsv (P : Palette) : Color → Color
  | .Luma c => .Hsv (P.hsvOfLuma c)
  | .Oklab c => .Hsv (P.hsvOfOklab c)
  | .Oklch c => .Hsv (P.hsvOfOklch c)
  | .Rgb c => .Hsv (P.hsvOfRgb c)
  | .LinearRgb c => .Hsv (P.hsvOfRgb (P.rgbOfLinear c))
  | .Cmyk c => .Hsv (P.hsvOfRgb (c.toRgba P))
  | .Hsl c => .Hsv (P.hsvOfHsl c)
  | .Hsv c => .Hsv c

/-- `Color::to_space` (convert.rs): dispatch to the eight total conversions. -/
def Color.toSpace (P : Palette) (c : Color) : ColorSpace → Color
  | .Oklab => c.toOklab P
  | .Oklch => c.toOklch P
  | .Srgb => c.toRgb P
  | .LinearRgb => c.toLinearRgb P
  | .Hsl => c.toHsl P
  | .Hsv => c.toHsv P
  | .Cmyk => c.toCmyk P
  | .D65Gray => c.toLuma P

/-- Replacement of one missing component by zero, as done for every
component by `Color::normalize`. -/
def Flt.orZero : Flt → Flt
  | .nan => .fin 0
  | x => x

/-- `Color::normalize` (mod.rs): replace any missing (NaN) component with
zero — for the `palette` variants via the mutable component slice, for Cmyk
via the special case; the effect on each stored channel is identical. -/
def Color.normalize : Color → Color
  | .Luma c => .Luma ⟨c.luma.orZero, c.alpha.orZero⟩
  | .Oklab c => .Oklab ⟨c.l.orZero, c.a.orZero, c.b.orZero, c.alpha.orZero⟩
  | .Oklch c => .Oklch ⟨c.l.orZero, c.chroma.orZero, c.hue.orZero, c.alpha.orZero⟩
  | .Rgb c => .Rgb ⟨c.red.orZero, c.green.orZero, c.blue.orZero, c.alpha.orZero⟩
  | .LinearRgb c => .LinearRgb ⟨c.red.orZero, c.green.orZero, c.blue.orZero, c.alpha.orZero⟩
  | .Cmyk c => .Cmyk ⟨c.c.orZero, c.m.orZero, c.y.orZero, c.k.orZero⟩
  | .Hsl c => .Hsl ⟨c.hue.orZero, c.saturation.orZero, c.lightness.orZero, c.alpha.orZero⟩
  | .Hsv c => .Hsv ⟨c.hue.orZero, c.saturation.orZero, c.value.orZero, c.alpha.orZero⟩

/-- `Color::alpha` (mod.rs): the alpha channel, `none` for Cmyk. -/
def Color.alpha : Color → Option Flt
  | .Cmyk _ => none
  | .Luma c => some c.alpha
  | .Oklab c => some c.alpha
  | .Oklch c => some c.alpha
  | .Rgb c => some c.alpha
  | .LinearRgb c => some c.alpha
  | .Hsl c => some c.alpha
  | .Hsv c => some c.alpha

/-- `Color::with_alpha` (mod.rs): set the alpha channel, a no-op for Cmyk. -/
def Color.withAlpha : Color → Flt → Color
  | .Cmyk c, _ => .Cmyk c
  | .Luma c, a => .Luma { c with alpha := a }
  | .Oklab c, a => .Oklab { c with alpha := a }
  | .Oklch c, a => .Oklch { c with alpha := a }
  | .Rgb c, a => .Rgb { c with alpha := a }
  | .LinearRgb c, a => .LinearRgb { c with alpha := a }
  | .Hsl c, a => .Hsl { c with alpha := a }
  | .Hsv c, a => .Hsv { c with alpha := a }

/-- The `transform` closure of `Color::scale_alpha` (mod.rs), acting on the
alpha channel: `factor = if scale > 0 { 1 - alpha } else { alpha };
alpha = (alpha + scale * factor).clamp(0, 1)`.  The scale is a `Ratio`
(a finite float), embedded as a rational. -/
def scaleAlphaChan (alpha : Flt) (scale : ℚ) : Flt :=
  let factor := if 0 < scale then (Flt.fin 1).sub alpha else alpha
  (alpha.add ((Flt.fin scale).mul factor)).clamp 0 1

/-- `Color::scale_alpha` (mod.rs): fails for Cmyk, otherwise rescales the
alpha channel and leaves all other channels unchanged. -/
def Color.scaleAlpha (c : Color) (scale : ℚ) : Except String Color :=
  match c with
  | .Cmyk _ => .error "CMYK does not have an alpha component"
  | .Luma c => .ok (.Luma { c with alpha := scaleAlphaChan c.alpha scale })
  | .Oklab c => .ok (.Oklab { c with alpha := scaleAlphaChan c.alpha scale })
  | .Oklch c => .ok (.Oklch { c with alpha := scaleAlphaChan c.alpha scale })
  | .Rgb c => .ok (.Rgb { c with alpha := scaleAlphaChan c.alpha scale })
  | .LinearRgb c => .ok (.LinearRgb { c with alpha := scaleAlphaChan c.alpha scale })
  | .Hsl c => .ok (.Hsl { c with alpha := scaleAlphaChan c.alpha scale })
  | .Hsv c => .ok (.Hsv { c with alpha := scaleAlphaChan c.alpha scale })

/-- `Color::transparentize` (mod.rs): `self.scale_alpha(-scale)`. -/
def Color.transparentize (c : Color) (scale : ℚ) : Except String Color :=
  c.scaleAlpha (-scale)

/-- `Color::opacify` (mod.rs): `self.scale_alpha(scale)`. -/
def Color.opacify (c : Color) (scale : ℚ) : Except String Color :=
  c.scaleAlpha scale

/-- One channel comparison of `PartialEq for Color` in the quantized
(Srgb/D65Gray) mode: two NaNs are equal, otherwise the channels are
compared after the `(x * 255.0).round() as u8` quantization. -/
def chanEqQuant (a b : Flt) : Bool :=
  (a.isNan && b.isNan) || (a.toU8 == b.toU8)

/-- One channel comparison of `PartialEq for Color` in the exact mode: two
NaNs are equal, otherwise IEEE `==`. -/
def chanEqExact (a b : Flt) : Bool :=
  (a.isNan && b.isNan) || a.eqB b

/-- `PartialEq for Color` (mod.rs): spaces must match; Srgb and D65Gray
compare the four exported channels after 8-bit quantization, all other
spaces compare them exactly; NaN channels compare equal to each other. -/
def Color.colorEq (x y : Color) : Bool :=
  let space := x.space
  if space = y.space then
    if space = ColorSpace.Srgb ∨ space = ColorSpace.D65Gray then
      (List.finRange 4).all fun i => chanEqQuant (x.toVec4.get i) (y.toVec4.get i)
    else
      (List.finRange 4).all fun i => chanEqExact (x.toVec4.get i) (y.toVec4.get i)
  else false

/-- The variant discriminant, in declaration order. -/
def Color.discr : Color → ℕ
  | .Luma _ => 0
  | .Oklab _ => 1
  | .Oklch _ => 2
  | .Rgb _ => 3
  | .LinearRgb _ => 4
  | .Cmyk _ => 5
  | .Hsl _ => 6
  | .Hsv _ => 7

/-- The data `Hash for Color` (mod.rs) feeds to the hasher: the variant
discriminant followed by the raw bit patterns (`f32::to_bits`) of the four
exported channels.  Distinct finite float values have distinct bit
patterns, so two colors with different `hashData` feed different byte
streams to the hasher. -/
def Color.hashData (c : Color) : ℕ × Flt × Flt × Flt × Flt :=
  (c.discr, c.toVec4.v0, c.toVec4.v1, c.toVec4.v2, c.toVec4.v3)

/-- `Color::from_u8` (convert.rs): an Rgb color from four bytes. -/
def Color.fromU8 (r g b a : ℕ) : Color :=
  .Rgb ⟨.fin ((r : ℚ) / 255), .fin ((g : ℚ) / 255), .fin ((b : ℚ) / 255), .fin ((a : ℚ) / 255)⟩

/-- Rust `char::is_ascii_hexdigit`: `0-9`, `a-f` or `A-F`. -/
def isHexDigitC (ch : Char) : Bool :=
  (48 ≤ ch.toNat && ch.toNat ≤ 57) ||
  (97 ≤ ch.toNat && ch.toNat ≤ 102) ||
  (65 ≤ ch.toNat && ch.toNat ≤ 70)

/-- The numeric value of an ASCII hex digit (`u8::from_str_radix` on one
digit). -/
def hexVal (ch : Char) : ℕ :=
  if ch.toNat ≤ 57 then ch.toNat - 48
  else if 97 ≤ ch.toNat then ch.toNat - 87
  else ch.toNat - 55

/-- The `hex_str.strip_prefix('#').unwrap_or(hex_str)` step of
`Color::from_str`. -/
def stripHash : List Char → List Char
  | c :: rest => if c = '#' then rest else c :: rest
  | [] => []

/-- `FromStr for Color` (convert.rs): hex parsing.  The per-element loop is
rendered as the indexed `value` function: a long form reads two digits per
element (`u8::from_str_radix(item, 16)` on a 2-digit slice is
`16 * hexVal d1 + hexVal d2`), a short form reads one digit `v` and expands
it to `v + v * 16`; a missing alpha element keeps the `u8::MAX` default. -/
def Color.fromStr (str : List Char) : Except String Color :=
  let s := stripHash str
  if s.any fun ch => !(isHexDigitC ch) then
    .error "color string contains non-hexadecimal letters"
  else
    let len := s.length
    let long := len == 6 || len == 8
    let short := len == 3 || len == 4
    let alpha := len == 4 || len == 8
    if !long && !short then .error "color string has wrong length"
    else
      let value := fun elem =>
        if long then 16 * hexVal (s.getD (2 * elem) '0') + hexVal (s.getD (2 * elem + 1) '0')
        else
          let v := hexVal (s.getD elem '0')
          v + v * 16
      .ok (fromU8 (value 0) (value 1) (value 2) (if alpha then value 3 else 255))

/-- The lowercase hex digit of a value below 16 (`{:02x}` formatting). -/
def hexChar (n : ℕ) : Char :=
  if n < 10 then Char.ofNat (48 + n) else Char.ofNat (87 + n)

/-- A byte rendered as two lowercase hex digits (`{:02x}`). -/
def byteHex (n : ℕ) : List Char :=
  [hexChar (n / 16), hexChar (n % 16)]

/-- `Color::to_hex` (mod.rs): convert to Rgb, normalize missing components
to zero, export as four bytes; render `#rrggbb`, or `#rrggbbaa` when the
alpha byte is not 255. -/
def Color.toHex (P : Palette) (c : Color) : List Char :=
  let d := (c.toRgb P).normalize
  let r := d.toVec4U8 0
  let g := d.toVec4U8 1
  let b := d.toVec4U8 2
  let a := d.toVec4U8 3
  if a ≠ 255 then '#' :: (byteHex r ++ byteHex g ++ byteHex b ++ byteHex a)
  else '#' :: (byteHex r ++ byteHex g ++ byteHex b)

/-- `WeightedColor` (mix.rs): a color with an `f64` weight. -/
structure WeightedColor where
  color : Color
  weight : Flt
deriving Repr

/-- The running total of the weights, as the accumulation loop of
`mix_iter` computes it. -/
def sumWeights (colors : List WeightedColor) : Flt :=
  colors.foldl (fun t wc => t.add wc.weight) (.fin 0)

/-- The `Ok(match space { ... })` tail of `mix_iter` (mix.rs): reassemble
the mixed 4-float vector into the target space's constructor (the Hsl/Hsv
and Oklch constructors store the hue channel as raw degrees; D65Gray keeps
channels 0 and 3). -/
def assembleMix (space : ColorSpace) (m : Vec4) : Color :=
  match space with
  | .Oklab => .Oklab ⟨m.v0, m.v1, m.v2, m.v3⟩
  | .Oklch => .Oklch ⟨m.v0, m.v1, m.v2, m.v3⟩
  | .Srgb => .Rgb ⟨m.v0, m.v1, m.v2, m.v3⟩
  | .LinearRgb => .LinearRgb ⟨m.v0, m.v1, m.v2, m.v3⟩
  | .Hsl => .Hsl ⟨m.v0, m.v1, m.v2, m.v3⟩
  | .Hsv => .Hsv ⟨m.v0, m.v1, m.v2, m.v3⟩
  | .Cmyk => .Cmyk ⟨m.v0, m.v1, m.v2, m.v3⟩
  | .D65Gray => .Luma ⟨m.v0, m.v3⟩

/-- The two-colors-in-a-hue-space path of `mix_iter` (mix.rs): convert both
colors, fail on a non-positive `w0 + w1`, average every channel, then redo
the hue channel over the shorter arc when the hues are more than 180°
apart (360° is added to the smaller hue before re-averaging). -/
def mixPairHue (P : Palette) (space : ColorSpace) (index : Fin 4)
    (wc0 wc1 : WeightedColor) : Except String Vec4 :=
  let c0 := (wc0.color.toSpace P space).toVec4
  let c1 := (wc1.color.toSpace P space).toVec4
  let w0 := wc0.weight
  let w1 := wc1.weight
  if (w0.add w1).leB (.fin 0) then .error "sum of weights must be positive"
  else
    let avg := fun (i : Fin 4) =>
      ((w0.mul (c0.get i)).add (w1.mul (c1.get i))).div (w0.add w1)
    let m : Vec4 := ⟨avg 0, avg 1, avg 2, avg 3⟩
    let m :=
      if ((c0.get index).sub (c1.get index)).abs.gtB (.fin 180) then
        let h :=
          if (c0.get index).ltB (c1.get index) then
            ((c0.get index).add (.fin 360), c1.get index)
          else (c0.get index, (c1.get index).add (.fin 360))
        m.set index (((w0.mul h.1).add (w1.mul h.2)).div (w0.add w1))
      else m
    .ok m

/-- One iteration of the accumulation loop of `mix_iter` (mix.rs):
`acc[i] += weight * v[i]` for the four channels and `total += weight`. -/
def mixStep (P : Palette) (space : ColorSpace) (acc : Vec4 × Flt)
    (wc : WeightedColor) : Vec4 × Flt :=
  let v := (wc.color.toSpace P space).toVec4
  (⟨acc.1.v0.add (wc.weight.mul v.v0), acc.1.v1.add (wc.weight.mul v.v1),
    acc.1.v2.add (wc.weight.mul v.v2), acc.1.v3.add (wc.weight.mul v.v3)⟩,
   acc.2.add wc.weight)

/-- The `(acc, total)` pair after the accumulation loop of `mix_iter`
(mix.rs), starting from four zero channels and a zero total. -/
def mixFold (P : Palette) (space : ColorSpace) (colors : List WeightedColor) :
    Vec4 × Flt :=
  colors.foldl (mixStep P space) (⟨.fin 0, .fin 0, .fin 0, .fin 0⟩, .fin 0)

/-- The accumulation path of `mix_iter` (mix.rs): fold `mixStep` over the
colors, fail on a non-positive total, divide each channel by the total. -/
def mixAccum (P : Palette) (space : ColorSpace) (colors : List WeightedColor) :
    Except String Vec4 :=
  if (mixFold P space colors).2.leB (.fin 0) then
    .error "sum of weights must be positive"
  else
    .ok ⟨(mixFold P space colors).1.v0.div (mixFold P space colors).2,
         (mixFold P space colors).1.v1.div (mixFold P space colors).2,
         (mixFold P space colors).1.v2.div (mixFold P space colors).2,
         (mixFold P space colors).1.v3.div (mixFold P space colors).2⟩

/-- The dispatch between the two computation paths of `mix_iter` (mix.rs):
the pairwise path needs a hue-bearing target and exactly two colors. -/
def mixBody (P : Palette) (colors : List WeightedColor) (space : ColorSpace) :
    Except String Vec4 :=
  match space.hueIndex, colors with
  | some index, [wc0, wc1] => mixPairHue P space index wc0 wc1
  | _, _ => mixAccum P space colors

/-- `mix_iter` (mix.rs).  A hue-bearing target with more than two colors
fails; exactly two colors in a hue-bearing target take the pairwise path
with the shortest-arc hue correction; every other case accumulates
`weight * channel` and divides by the total weight; a non-positive weight
sum fails in either path. -/
def mixIter (P : Palette) (colors : List WeightedColor) (space : ColorSpace) :
    Except String Color :=
  if space.hueIndex.isSome && decide (2 < colors.length) then
    .error "cannot mix more than two colors in a hue-based space"
  else
    match mixBody P colors space with
    | .error e => .error e
    | .ok m => .ok (assembleMix space m)

/-! ## Shared lemmas -/

namespace Flt

@[simp] theorem add_fin (a b : ℚ) : (fin a).add (fin b) = fin (a + b) := rfl

@[simp] theorem sub_fin (a b : ℚ) : (fin a).sub (fin b) = fin (a - b) := rfl

@[simp] theorem mul_fin (a b : ℚ) : (fin a).mul (fin b) = fin (a * b) := rfl

@[simp] theorem div_fin (a b : ℚ) :
    (fin a).div (fin b) = if b = 0 then nan else fin (a / b) := rfl

@[simp] theorem max_fin (a b : ℚ) : (fin a).max (fin b) = fin (Max.max a b) := rfl

@[simp] theorem abs_fin (a : ℚ) : (fin a).abs = fin (|a|) := rfl

@[simp] theorem isNan_fin (a : ℚ) : (fin a).isNan = false := rfl

@[simp] theorem isNan_nan : (nan).isNan = true := rfl

@[simp] theorem ltB_fin (a b : ℚ) : (fin a).ltB (fin b) = decide (a < b) := rfl

@[simp] theorem leB_fin (a b : ℚ) : (fin a).leB (fin b) = decide (a ≤ b) := rfl

@[simp] theorem gtB_fin (a b : ℚ) : (fin a).gtB (fin b) = decide (b < a) := rfl

@[simp] theorem eqB_fin (a b : ℚ) : (fin a).eqB (fin b) = decide (a = b) := rfl

@[simp] theorem clamp_fin (a lo hi : ℚ) :
    (fin a).clamp lo hi = fin (min (Max.max a lo) hi) := rfl

@[simp] theorem remEuclid360_fin (a : ℚ) :
    (fin a).remEuclid360 = fin (a - 360 * ⌊a / 360⌋) := rfl

@[simp] theorem orZero_fin (a : ℚ) : (fin a).orZero = fin a := rfl

@[simp] theorem orZero_nan : (nan).orZero = fin 0 := rfl

theorem toU8_fin (q : ℚ) :
    (fin q).toU8 = (min (Max.max (rustRound (q * 255)) 0) 255).toNat := rfl

@[simp] theorem toU8_nan : (nan : Flt).toU8 = 0 := rfl

@[simp] theorem zero_add (x : Flt) : (fin 0).add x = x := by
  cases x <;> simp [Flt.add]

end Flt

theorem Color.space_toSpace (P : Palette) (c : Color) (S : ColorSpace) :
    (c.toSpace P S).space = S := by
  cases S <;> cases c <;> rfl

theorem Color.toSpace_self (P : Palette) (c : Color) : c.toSpace P c.space = c := by
  cases c <;> rfl

theorem chanEqQuant_refl (a : Flt) : chanEqQuant a a = true := by
  cases a <;> simp [chanEqQuant, Flt.isNan]

theorem chanEqExact_refl (a : Flt) : chanEqExact a a = true := by
  cases a <;> simp [chanEqExact, Flt.isNan, Flt.eqB]

theorem Color.colorEq_refl (c : Color) : c.colorEq c = true := by
  unfold Color.colorEq
  rw [if_pos rfl]
  split
  · rw [List.all_eq_true]
    intro i _
    exact chanEqQuant_refl _
  · rw [List.all_eq_true]
    intro i _
    exact chanEqExact_refl _

/-! ## C1 -/

/-- C1: for every color `c` and space `S`, converting twice to `S` equals
converting once — both as structural equality and under the code's `==` —
and converting a color to its own space is the identity (the same variant
with channels unchanged), again also under `==`. -/
theorem toSpace_idem_and_self (P : Palette) (c : Color) (S : ColorSpace) :
    ((c.toSpace P S).toSpace P S = c.toSpace P S ∧
      ((c.toSpace P S).toSpace P S).colorEq (c.toSpace P S) = true) ∧
    (c.toSpace P c.space = c ∧ (c.toSpace P c.space).colorEq c = true) := by
  have h1 : (c.toSpace P S).toSpace P S = c.toSpace P S := by
    have h := Color.toSpace_self P (c.toSpace P S)
    rw [Color.space_toSpace P c S] at h
    exact h
  refine ⟨⟨h1, ?_⟩, Color.toSpace_self P c, ?_⟩
  · rw [h1]
    exact Color.colorEq_refl _
  · rw [Color.toSpace_self P c]
    exact Color.colorEq_refl c

/-! ## C4 -/

theorem chanEqQuant_iff (a b : Flt) : chanEqQuant a b = true ↔ a.toU8 = b.toU8 := by
  cases a <;> cases b <;> simp [chanEqQuant, Flt.isNan]

theorem chanEqExact_iff (a b : Flt) : chanEqExact a b = true ↔ a = b := by
  cases a <;> cases b <;> simp [chanEqExact, Flt.isNan, Flt.eqB]

/-- C4: equality holds only between colors of the same space; for Srgb and
D65Gray it compares each exported channel after quantization to the nearest
8-bit integer (so `rgb(0.5019, …)` equals `rgb(128/255, …)` although the
raw channels differ); every other space compares the exported channels
exactly; and in both modes two missing (NaN) channels compare equal. -/
theorem color_eq_spec :
    (∀ x y : Color, x.colorEq y = true → x.space = y.space) ∧
    (∀ x y : Color, x.space = y.space →
      (x.space = ColorSpace.Srgb ∨ x.space = ColorSpace.D65Gray) →
      (x.colorEq y = true ↔ ∀ i : Fin 4, x.toVec4U8 i = y.toVec4U8 i)) ∧
    (∀ x y : Color, x.space = y.space →
      ¬(x.space = ColorSpace.Srgb ∨ x.space = ColorSpace.D65Gray) →
      (x.colorEq y = true ↔ ∀ i : Fin 4, x.toVec4.get i = y.toVec4.get i)) ∧
    (chanEqQuant .nan .nan = true ∧ chanEqExact .nan .nan = true) ∧
    (Color.colorEq (.Rgb ⟨.fin (5019 / 10000), .fin 0, .fin 0, .fin 1⟩)
        (.Rgb ⟨.fin (128 / 255), .fin 0, .fin 0, .fin 1⟩) = true ∧
      (5019 / 10000 : ℚ) ≠ 128 / 255) := by
  have hquant : ∀ x y : Color, x.space = y.space →
      (x.space = ColorSpace.Srgb ∨ x.space = ColorSpace.D65Gray) →
      (x.colorEq y = true ↔ ∀ i : Fin 4, x.toVec4U8 i = y.toVec4U8 i) := by
    intro x y hsp hq
    unfold Color.colorEq
    rw [if_pos hsp, if_pos hq, List.all_eq_true]
    constructor
    · intro h i
      exact (chanEqQuant_iff _ _).mp (h i (List.mem_finRange i))
    · intro h i _
      exact (chanEqQuant_iff _ _).mpr (h i)
  refine ⟨?_, hquant, ?_, ⟨rfl, rfl⟩, ?_, by norm_num⟩
  · intro x y h
    by_contra hne
    unfold Color.colorEq at h
    rw [if_neg hne] at h
    cases h
  · intro x y hsp hq
    unfold Color.colorEq
    rw [if_pos hsp, if_neg hq, List.all_eq_true]
    constructor
    · intro h i
      exact (chanEqExact_iff _ _).mp (h i (List.mem_finRange i))
    · intro h i _
      exact (chanEqExact_iff _ _).mpr (h i)
  · have h5 := hquant (.Rgb ⟨.fin (5019 / 10000), .fin 0, .fin 0, .fin 1⟩)
      (.Rgb ⟨.fin (128 / 255), .fin 0, .fin 0, .fin 1⟩) rfl (Or.inl rfl)
    refine h5.mpr ?_
    intro i
    fin_cases i
    · show Flt.toU8 (.fin (5019 / 10000)) = Flt.toU8 (.fin (128 / 255))
      rw [Flt.toU8_fin, Flt.toU8_fin]
      norm_num [rustRound]
    · rfl
    · rfl
    · rfl

/-- Witness for C4: the quantized-comparison characterization evaluated at
two concrete Srgb colors whose raw channels differ. -/
theorem color_eq_spec_witness :
    Color.colorEq (.Rgb ⟨.fin (5019 / 10000), .fin 0, .fin 0, .fin 1⟩)
        (.Rgb ⟨.fin (128 / 255), .fin 0, .fin 0, .fin 1⟩) = true ↔
      ∀ i : Fin 4,
        (Color.Rgb ⟨.fin (5019 / 10000), .fin 0, .fin 0, .fin 1⟩).toVec4U8 i =
        (Color.Rgb ⟨.fin (128 / 255), .fin 0, .fin 0, .fin 1⟩).toVec4U8 i :=
  color_eq_spec.2.1 (.Rgb ⟨.fin (5019 / 10000), .fin 0, .fin 0, .fin 1⟩)
    (.Rgb ⟨.fin (128 / 255), .fin 0, .fin 0, .fin 1⟩) rfl (Or.inl rfl)

/-! ## C5 -/

/-- C5 (violation exhibit): two Srgb colors that the code's `==` makes
equal — the raw channels 0 and 1/1000 both quantize to the byte 0 — while
the `Hash` implementation feeds the hasher different data (the raw bit
patterns of the first channel differ).  Hashing is therefore not congruent
with equality. -/
theorem hash_diverges_from_eq :
    Color.colorEq (.Rgb ⟨.fin 0, .fin 0, .fin 0, .fin 1⟩)
        (.Rgb ⟨.fin (1 / 1000), .fin 0, .fin 0, .fin 1⟩) = true ∧
    Color.hashData (.Rgb ⟨.fin 0, .fin 0, .fin 0, .fin 1⟩) ≠
      Color.hashData (.Rgb ⟨.fin (1 / 1000), .fin 0, .fin 0, .fin 1⟩) := by
  constructor
  · have hred : Color.colorEq (.Rgb ⟨.fin 0, .fin 0, .fin 0, .fin 1⟩)
        (.Rgb ⟨.fin (1 / 1000), .fin 0, .fin 0, .fin 1⟩) =
        (List.finRange 4).all fun i =>
          chanEqQuant
            ((Color.Rgb ⟨.fin 0, .fin 0, .fin 0, .fin 1⟩).toVec4.get i)
            ((Color.Rgb ⟨.fin (1 / 1000), .fin 0, .fin 0, .fin 1⟩).toVec4.get i) := rfl
    rw [hred, List.all_eq_true]
    intro i _
    fin_cases i
    · refine (chanEqQuant_iff _ _).mpr ?_
      show Flt.toU8 (.fin 0) = Flt.toU8 (.fin (1 / 1000))
      rw [Flt.toU8_fin, Flt.toU8_fin]
      norm_num [rustRound]
    · exact chanEqQuant_refl _
    · exact chanEqQuant_refl _
    · exact chanEqQuant_refl _
  · intro h
    have h0 := congrArg (fun t => t.2.1) h
    simp only [Color.hashData, Color.toVec4, Color.discr, Flt.fin.injEq] at h0
    exact absurd h0 (by norm_num)

/-! ## C6 -/

/-- C6: `Cmyk::from_rgba` implements the naive formula: with
`k = 1 - max(r, g, b)`, a `k` equal to 1 short-circuits to `(0, 0, 0, 1)`
so the division by `1 - k` never happens, and otherwise each ink channel is
`(1 - channel - k) / (1 - k)`; in particular `rgb(1, 0, 0).to_cmyk()` is
`(c, m, y, k) = (0, 1, 1, 0)`. -/
theorem cmyk_from_rgba_naive :
    (∀ (r g b : ℚ) (al : Flt), 1 - Max.max (Max.max r g) b = 1 →
      CmykC.fromRgba ⟨.fin r, .fin g, .fin b, al⟩ = ⟨.fin 0, .fin 0, .fin 0, .fin 1⟩) ∧
    (∀ (r g b : ℚ) (al : Flt) (k : ℚ), k = 1 - Max.max (Max.max r g) b → k ≠ 1 →
      CmykC.fromRgba ⟨.fin r, .fin g, .fin b, al⟩ =
        ⟨.fin ((1 - r - k) / (1 - k)), .fin ((1 - g - k) / (1 - k)),
         .fin ((1 - b - k) / (1 - k)), .fin k⟩) ∧
    (∀ P : Palette, (Color.Rgb ⟨.fin 1, .fin 0, .fin 0, .fin 1⟩).toCmyk P =
      .Cmyk ⟨.fin 0, .fin 1, .fin 1, .fin 0⟩) := by
  have h1 : ∀ (r g b : ℚ) (al : Flt), 1 - Max.max (Max.max r g) b = 1 →
      CmykC.fromRgba ⟨.fin r, .fin g, .fin b, al⟩ = ⟨.fin 0, .fin 0, .fin 0, .fin 1⟩ := by
    intro r g b al h
    unfold CmykC.fromRgba
    rw [if_pos]
    simp only [Flt.max_fin, Flt.sub_fin, Flt.eqB_fin]
    exact decide_eq_true h
  have h2 : ∀ (r g b : ℚ) (al : Flt) (k : ℚ), k = 1 - Max.max (Max.max r g) b → k ≠ 1 →
      CmykC.fromRgba ⟨.fin r, .fin g, .fin b, al⟩ =
        ⟨.fin ((1 - r - k) / (1 - k)), .fin ((1 - g - k) / (1 - k)),
         .fin ((1 - b - k) / (1 - k)), .fin k⟩ := by
    intro r g b al k hk hk1
    subst hk
    unfold CmykC.fromRgba
    have hcond : ¬(((Flt.fin 1).sub (((Flt.fin r).max (.fin g)).max (.fin b))).eqB
        (.fin 1) = true) := by
      simp only [Flt.max_fin, Flt.sub_fin, Flt.eqB_fin, decide_eq_true_eq]
      exact hk1
    rw [if_neg hcond]
    have hden : ¬(1 - (1 - Max.max (Max.max r g) b) = 0) := by
      intro h0
      exact hk1 (by linarith)
    simp only [Flt.max_fin, Flt.sub_fin, Flt.div_fin, if_neg hden]
  refine ⟨h1, h2, ?_⟩
  intro P
  show Color.Cmyk (CmykC.fromRgba ⟨.fin 1, .fin 0, .fin 0, .fin 1⟩) = _
  have hmax : Max.max (Max.max (1 : ℚ) 0) 0 = 1 := by
    rw [max_eq_left (by norm_num), max_eq_left (by norm_num)]
  have hc := h2 1 0 0 (.fin 1) 0 (by rw [hmax]; norm_num) (by norm_num)
  rw [hc]
  norm_num

/-! ## C7 -/

/-- C7: for every non-Cmyk color, `scale_alpha` replaces the alpha channel
by `clamp(alpha + scale * (if scale > 0 then 1 - alpha else alpha), 0, 1)`
leaving every other channel unchanged (`with_alpha` of the same color);
`transparentize(s)` is `scale_alpha(-s)` and `opacify(s)` is
`scale_alpha(s)`; transparentizing an opaque Rgb color by 50% gives alpha
1/2 and opacifying that by 50% gives 3/4; on a Cmyk color all three
operations fail with the missing-alpha-channel error. -/
theorem scale_alpha_spec :
    (∀ (c : Color) (s : ℚ) (al : Flt), c.space ≠ ColorSpace.Cmyk → c.alpha = some al →
      c.scaleAlpha s = .ok (c.withAlpha ((al.add ((Flt.fin s).mul
        (if 0 < s then (Flt.fin 1).sub al else al))).clamp 0 1))) ∧
    (∀ (c : Color) (s : ℚ), c.transparentize s = c.scaleAlpha (-s)) ∧
    (∀ (c : Color) (s : ℚ), c.opacify s = c.scaleAlpha s) ∧
    ((Color.Rgb ⟨.fin 1, .fin 0, .fin 0, .fin 1⟩).transparentize (1 / 2) =
        .ok (.Rgb ⟨.fin 1, .fin 0, .fin 0, .fin (1 / 2)⟩) ∧
      (Color.Rgb ⟨.fin 1, .fin 0, .fin 0, .fin (1 / 2)⟩).opacify (1 / 2) =
        .ok (.Rgb ⟨.fin 1, .fin 0, .fin 0, .fin (3 / 4)⟩)) ∧
    (∀ (x : CmykC) (s : ℚ),
      (Color.Cmyk x).scaleAlpha s = .error "CMYK does not have an alpha component" ∧
      (Color.Cmyk x).transparentize s = .error "CMYK does not have an alpha component" ∧
      (Color.Cmyk x).opacify s = .error "CMYK does not have an alpha component") := by
  refine ⟨?_, fun c s => rfl, fun c s => rfl, ⟨?_, ?_⟩, fun x s => ⟨rfl, rfl, rfl⟩⟩
  · intro c s al hc hal
    cases c <;>
      first
        | exact absurd rfl hc
        | (simp only [Color.alpha, Option.some.injEq] at hal
           subst hal
           rfl)
  · show Except.ok (Color.Rgb ⟨.fin 1, .fin 0, .fin 0,
      scaleAlphaChan (.fin 1) (-(1 / 2))⟩) = _
    have : scaleAlphaChan (.fin 1) (-(1 / 2)) = .fin (1 / 2) := by
      unfold scaleAlphaChan
      rw [if_neg (by norm_num)]
      simp only [Flt.mul_fin, Flt.add_fin, Flt.clamp_fin]
      norm_num
    rw [this]
  · show Except.ok (Color.Rgb ⟨.fin 1, .fin 0, .fin 0,
      scaleAlphaChan (.fin (1 / 2)) (1 / 2)⟩) = _
    have : scaleAlphaChan (.fin (1 / 2)) (1 / 2) = .fin (3 / 4) := by
      unfold scaleAlphaChan
      rw [if_pos (by norm_num)]
      simp only [Flt.sub_fin, Flt.mul_fin, Flt.add_fin, Flt.clamp_fin]
      norm_num
    rw [this]

/-! ## C10 -/

theorem Flt.toU8_le (x : Flt) : x.toU8 ≤ 255 := by
  cases x with
  | nan => simp
  | fin a =>
    rw [Flt.toU8_fin]
    have h : min (Max.max (rustRound (a * 255)) 0) 255 ≤ 255 := min_le_right _ _
    omega

theorem Flt.toU8_gt_one (q : ℚ) (h : 1 < q) : (Flt.fin q).toU8 = 255 := by
  rw [Flt.toU8_fin]
  have h0 : (0 : ℚ) ≤ q * 255 := by nlinarith
  have hr : (255 : ℤ) ≤ rustRound (q * 255) := by
    unfold rustRound
    rw [if_pos h0]
    refine Int.le_floor.mpr ?_
    push_cast
    nlinarith
  rw [max_eq_left (le_trans (by norm_num) hr), min_eq_right hr]
  rfl

theorem Flt.toU8_neg (q : ℚ) (h : q < 0) : (Flt.fin q).toU8 = 0 := by
  rw [Flt.toU8_fin]
  have hlt : q * 255 < 0 := by nlinarith
  have hfl : (0 : ℤ) ≤ ⌊-(q * 255) + 1 / 2⌋ := by
    refine Int.le_floor.mpr ?_
    push_cast
    nlinarith
  unfold rustRound
  rw [if_neg (not_le.mpr hlt), max_eq_right (by omega), min_eq_left (by norm_num)]
  rfl

/-- C10: `to_vec4_u8` is total on every color in every space: each exported
channel goes through `round(x * 255)` with a saturating cast, so a missing
(NaN) channel maps to 0, a channel above 1 maps to 255, a negative channel
maps to 0, and the result is always a byte. -/
theorem to_vec4_u8_total (c : Color) (i : Fin 4) :
    c.toVec4U8 i = (c.toVec4.get i).toU8 ∧
    (c.toVec4.get i = .nan → c.toVec4U8 i = 0) ∧
    (∀ q : ℚ, c.toVec4.get i = .fin q → 1 < q → c.toVec4U8 i = 255) ∧
    (∀ q : ℚ, c.toVec4.get i = .fin q → q < 0 → c.toVec4U8 i = 0) ∧
    c.toVec4U8 i ≤ 255 := by
  refine ⟨rfl, ?_, ?_, ?_, Flt.toU8_le _⟩
  · intro h
    unfold Color.toVec4U8
    rw [h]
    rfl
  · intro q h hq
    unfold Color.toVec4U8
    rw [h]
    exact Flt.toU8_gt_one q hq
  · intro q h hq
    unfold Color.toVec4U8
    rw [h]
    exact Flt.toU8_neg q hq

/-- Witness for C10: evaluated on an Oklab color with a missing first
channel, a second channel above 1 and a negative third channel. -/
theorem to_vec4_u8_total_witness :
    (Color.Oklab ⟨.nan, .fin 2, .fin (-1), .fin 1⟩).toVec4U8 0 = 0 ∧
    (Color.Oklab ⟨.nan, .fin 2, .fin (-1), .fin 1⟩).toVec4U8 1 = 255 ∧
    (Color.Oklab ⟨.nan, .fin 2, .fin (-1), .fin 1⟩).toVec4U8 2 = 0 :=
  ⟨(to_vec4_u8_total _ 0).2.1 rfl,
   (to_vec4_u8_total _ 1).2.2.1 2 rfl (by norm_num),
   (to_vec4_u8_total _ 2).2.2.2.1 (-1) rfl (by norm_num)⟩

/-! ## C9 -/

theorem mixStep_foldl_snd (P : Palette) (space : ColorSpace) :
    ∀ (l : List WeightedColor) (v : Vec4) (t : Flt),
      (l.foldl (mixStep P space) (v, t)).2 =
        l.foldl (fun t wc => t.add wc.weight) t := by
  intro l
  induction l with
  | nil => intro v t; rfl
  | cons wc l ih =>
    intro v t
    exact ih _ _

theorem mixFold_snd (P : Palette) (space : ColorSpace) (colors : List WeightedColor) :
    (mixFold P space colors).2 = sumWeights colors :=
  mixStep_foldl_snd P space colors _ _

theorem sumWeights_pair (wc0 wc1 : WeightedColor) :
    sumWeights [wc0, wc1] = wc0.weight.add wc1.weight := by
  simp [sumWeights]

theorem mixAccum_spec (P : Palette) (space : ColorSpace) (colors : List WeightedColor) :
    ((sumWeights colors).leB (.fin 0) = true →
      mixAccum P space colors = .error "sum of weights must be positive") ∧
    ((sumWeights colors).leB (.fin 0) = false →
      ∃ v, mixAccum P space colors = .ok v) := by
  constructor <;> intro h <;> unfold mixAccum
  · rw [mixFold_snd, if_pos h]
  · rw [mixFold_snd, if_neg (by rw [h]; exact Bool.false_ne_true)]
    exact ⟨_, rfl⟩

theorem mixPairHue_spec (P : Palette) (space : ColorSpace) (index : Fin 4)
    (wc0 wc1 : WeightedColor) :
    ((wc0.weight.add wc1.weight).leB (.fin 0) = true →
      mixPairHue P space index wc0 wc1 = .error "sum of weights must be positive") ∧
    ((wc0.weight.add wc1.weight).leB (.fin 0) = false →
      ∃ v, mixPairHue P space index wc0 wc1 = .ok v) := by
  constructor <;> intro h <;> unfold mixPairHue
  · rw [if_pos h]
  · rw [if_neg (by rw [h]; exact Bool.false_ne_true)]
    exact ⟨_, rfl⟩

theorem mixBody_pair (P : Palette) (space : ColorSpace) (idx : Fin 4)
    (wc0 wc1 : WeightedColor) (hh : space.hueIndex = some idx) :
    mixBody P [wc0, wc1] space = mixPairHue P space idx wc0 wc1 := by
  unfold mixBody
  rw [hh]

theorem mixBody_accum (P : Palette) (space : ColorSpace) (colors : List WeightedColor)
    (hna : space.hueIndex = none ∨ ¬ colors.length = 2) :
    mixBody P colors space = mixAccum P space colors := by
  unfold mixBody
  rcases hna with hh | hl
  · rw [hh]
  · rcases hh : space.hueIndex with _ | idx
    · rfl
    · match colors, hl with
      | [], _ => rfl
      | [wc0], _ => rfl
      | [wc0, wc1], hl => exact absurd rfl hl
      | wc0 :: wc1 :: wc2 :: rest, _ => rfl

/-- C9: mixing fails with "cannot mix more than two colors in a hue-based
space" exactly when the target has a hue channel and more than two colors
are given; otherwise it fails with "sum of weights must be positive"
exactly when the weight total compares `<= 0` (true in particular for the
empty list), and succeeds in every remaining case. -/
theorem mix_error_spec (P : Palette) (colors : List WeightedColor) (space : ColorSpace) :
    (space.hueIndex.isSome = true → 2 < colors.length →
      mixIter P colors space =
        .error "cannot mix more than two colors in a hue-based space") ∧
    (¬(space.hueIndex.isSome = true ∧ 2 < colors.length) →
      ((sumWeights colors).leB (.fin 0) = true →
        mixIter P colors space = .error "sum of weights must be positive") ∧
      ((sumWeights colors).leB (.fin 0) = false →
        ∃ out, mixIter P colors space = .ok out)) := by
  constructor
  · intro h1 h2
    unfold mixIter
    rw [if_pos (by rw [h1, decide_eq_true h2]; rfl)]
  · intro hno
    have hguard : (space.hueIndex.isSome && decide (2 < colors.length)) ≠ true := by
      intro hcontra
      rw [Bool.and_eq_true] at hcontra
      exact hno ⟨hcontra.1, of_decide_eq_true hcontra.2⟩
    unfold mixIter
    rw [if_neg hguard]
    have hbody :
        ((sumWeights colors).leB (.fin 0) = true →
          mixBody P colors space = .error "sum of weights must be positive") ∧
        ((sumWeights colors).leB (.fin 0) = false →
          ∃ v, mixBody P colors space = .ok v) := by
      rcases hh : space.hueIndex with _ | idx
      · rw [mixBody_accum P space colors (Or.inl hh)]
        exact mixAccum_spec P space colors
      · match colors with
        | [wc0, wc1] =>
          rw [mixBody_pair P space idx wc0 wc1 hh, sumWeights_pair]
          exact mixPairHue_spec P space idx wc0 wc1
        | [] =>
          rw [mixBody_accum P space [] (Or.inr (by simp))]
          exact mixAccum_spec P space []
        | [wc0] =>
          rw [mixBody_accum P space [wc0] (Or.inr (by simp))]
          exact mixAccum_spec P space [wc0]
        | wc0 :: wc1 :: wc2 :: rest =>
          refine absurd ⟨by rw [hh]; rfl, ?_⟩ hno
          simp only [List.length_cons]
          omega
    constructor <;> intro h
    · rw [hbody.1 h]
    · obtain ⟨v, hv⟩ := hbody.2 h
      rw [hv]
      exact ⟨_, rfl⟩

/-! ## C2 -/

theorem Vec4.get_set_same (m : Vec4) (i : Fin 4) (x : Flt) : (m.set i x).get i = x := by
  fin_cases i <;> rfl

/-- C2: when exactly two colors are mixed in a hue-bearing space with a
positive weight sum and the converted hues are more than 180° apart, the
mixed hue channel is the weighted average after adding 360° to the smaller
hue (shortest arc); in particular mixing `hsl(10deg, …)` and
`hsl(350deg, …)` at equal weight gives the stored hue 360°, which exports
to 0° — not 180°. -/
theorem mix_two_hue_shortest_arc :
    (∀ (P : Palette) (c0 c1 : Color) (w0 w1 : ℚ) (space : ColorSpace) (i : Fin 4)
      (h0 h1 : ℚ), space.hueIndex = some i → 0 < w0 + w1 →
      (c0.toSpace P space).toVec4.get i = .fin h0 →
      (c1.toSpace P space).toVec4.get i = .fin h1 →
      180 < |h0 - h1| →
      ∃ m : Vec4,
        mixIter P [⟨c0, .fin w0⟩, ⟨c1, .fin w1⟩] space = .ok (assembleMix space m) ∧
        m.get i = .fin ((w0 * (if h0 < h1 then h0 + 360 else h0) +
          w1 * (if h0 < h1 then h1 else h1 + 360)) / (w0 + w1))) ∧
    (∀ P : Palette,
      mixIter P [⟨.Hsl ⟨.fin 10, .fin (1 / 2), .fin (1 / 2), .fin 1⟩, .fin 1⟩,
          ⟨.Hsl ⟨.fin 350, .fin (1 / 2), .fin (1 / 2), .fin 1⟩, .fin 1⟩] .Hsl =
        .ok (.Hsl ⟨.fin 360, .fin (1 / 2), .fin (1 / 2), .fin 1⟩) ∧
      (Color.Hsl ⟨.fin 360, .fin (1 / 2), .fin (1 / 2), .fin 1⟩).toVec4.get 0 = .fin 0) := by
  constructor
  · intro P c0 c1 w0 w1 space i h0 h1 hi hw hv0 hv1 harc
    have hsum : w0 + w1 ≠ 0 := ne_of_gt hw
    unfold mixIter
    rw [if_neg (by simp)]
    rw [mixBody_pair P space i _ _ hi]
    by_cases hlt : h0 < h1
    · simp only [mixPairHue, hv0, hv1, Flt.add_fin, Flt.sub_fin, Flt.mul_fin,
        Flt.abs_fin, Flt.leB_fin, Flt.ltB_fin, Flt.gtB_fin, Flt.div_fin,
        decide_eq_false (not_le.mpr hw), decide_eq_true harc, decide_eq_true hlt,
        Bool.false_eq_true, if_false, if_true, if_neg hsum]
      refine ⟨_, rfl, ?_⟩
      rw [Vec4.get_set_same]
      rw [if_pos hlt, if_pos hlt]
    · simp only [mixPairHue, hv0, hv1, Flt.add_fin, Flt.sub_fin, Flt.mul_fin,
        Flt.abs_fin, Flt.leB_fin, Flt.ltB_fin, Flt.gtB_fin, Flt.div_fin,
        decide_eq_false (not_le.mpr hw), decide_eq_true harc, decide_eq_false hlt,
        Bool.false_eq_true, if_false, if_true, if_neg hsum]
      refine ⟨_, rfl, ?_⟩
      rw [Vec4.get_set_same]
      rw [if_neg hlt, if_neg hlt]
  · intro P
    constructor
    · have hpair : mixPairHue P ColorSpace.Hsl 0
          ⟨.Hsl ⟨.fin 10, .fin (1 / 2), .fin (1 / 2), .fin 1⟩, .fin 1⟩
          ⟨.Hsl ⟨.fin 350, .fin (1 / 2), .fin (1 / 2), .fin 1⟩, .fin 1⟩ =
          .ok ⟨.fin 360, .fin (1 / 2), .fin (1 / 2), .fin 1⟩ := by
        have hr10 : (Flt.fin 10).remEuclid360 = .fin 10 := by
          rw [Flt.remEuclid360_fin]
          norm_num
        have hr350 : (Flt.fin 350).remEuclid360 = .fin 350 := by
          rw [Flt.remEuclid360_fin]
          norm_num
        unfold mixPairHue
        simp only [Color.toSpace, Color.toHsl, Color.toVec4, Vec4.get, hr10, hr350,
          Flt.add_fin, Flt.sub_fin, Flt.mul_fin, Flt.div_fin, Flt.abs_fin,
          Flt.leB_fin, Flt.ltB_fin, Flt.gtB_fin]
        rw [if_neg (by rw [decide_eq_false (by norm_num : ¬((1 : ℚ) + 1 ≤ 0))]; exact Bool.false_ne_true)]
        rw [if_pos (decide_eq_true (by norm_num : (180 : ℚ) < |10 - 350|))]
        rw [if_pos (decide_eq_true (by norm_num : (10 : ℚ) < 350))]
        simp only [Flt.add_fin, Flt.mul_fin, Flt.div_fin, Vec4.set]
        rw [if_neg (by norm_num : ¬((1 : ℚ) + 1 = 0))]
        norm_num
      unfold mixIter
      rw [if_neg (by decide)]
      have hbody : mixBody P
          [⟨.Hsl ⟨.fin 10, .fin (1 / 2), .fin (1 / 2), .fin 1⟩, .fin 1⟩,
           ⟨.Hsl ⟨.fin 350, .fin (1 / 2), .fin (1 / 2), .fin 1⟩, .fin 1⟩]
          ColorSpace.Hsl = .ok ⟨.fin 360, .fin (1 / 2), .fin (1 / 2), .fin 1⟩ := by
        rw [mixBody_pair P ColorSpace.Hsl 0 _ _ rfl]
        exact hpair
      rw [hbody]
      rfl
    · show (Flt.fin 360).remEuclid360 = .fin 0
      rw [Flt.remEuclid360_fin]
      norm_num

/-- Witness for C2: the general shortest-arc statement applied to the two
concrete Hsl colors at equal weights. -/
theorem mix_two_hue_shortest_arc_witness :
    ∃ m : Vec4,
      mixIter Palette.dummy
          [⟨.Hsl ⟨.fin 10, .fin (1 / 2), .fin (1 / 2), .fin 1⟩, .fin 1⟩,
           ⟨.Hsl ⟨.fin 350, .fin (1 / 2), .fin (1 / 2), .fin 1⟩, .fin 1⟩]
          ColorSpace.Hsl = .ok (assembleMix ColorSpace.Hsl m) ∧
      m.get 0 = .fin ((1 * (if (10 : ℚ) < 350 then 10 + 360 else 10) +
        1 * (if (10 : ℚ) < 350 then 350 else 350 + 360)) / (1 + 1)) := by
  refine mix_two_hue_shortest_arc.1 Palette.dummy
    (.Hsl ⟨.fin 10, .fin (1 / 2), .fin (1 / 2), .fin 1⟩)
    (.Hsl ⟨.fin 350, .fin (1 / 2), .fin (1 / 2), .fin 1⟩)
    1 1 ColorSpace.Hsl 0 10 350 rfl (by norm_num) ?_ ?_ (by norm_num)
  · show (Flt.fin 10).remEuclid360 = .fin 10
    rw [Flt.remEuclid360_fin]
    norm_num
  · show (Flt.fin 350).remEuclid360 = .fin 350
    rw [Flt.remEuclid360_fin]
    norm_num

/-! ## C3 -/

/-- The sixteen lowercase hex digit characters, as `hexChar` renders them. -/
def lowHexDigits : List Char :=
  (List.range 16).map hexChar

theorem lowHex_facts : ∀ ch ∈ lowHexDigits,
    isHexDigitC ch = true ∧ hexVal ch < 16 ∧ hexChar (hexVal ch) = ch := by decide

theorem byteHex_split (hi lo : ℕ) (h : lo < 16) :
    byteHex (16 * hi + lo) = [hexChar hi, hexChar lo] := by
  unfold byteHex
  have h1 : (16 * hi + lo) / 16 = hi := by omega
  have h2 : (16 * hi + lo) % 16 = lo := by omega
  rw [h1, h2]

theorem toU8_byte (n : ℕ) (h : n ≤ 255) : Flt.toU8 (.fin ((n : ℚ) / 255)) = n := by
  rw [Flt.toU8_fin]
  have hmul : ((n : ℚ) / 255) * 255 = (n : ℚ) := by
    field_simp
  rw [hmul]
  unfold rustRound
  rw [if_pos (by positivity)]
  have hfl : ⌊(n : ℚ) + 1 / 2⌋ = (n : ℤ) := by
    rw [Int.floor_eq_iff]
    constructor
    · push_cast
      linarith
    · push_cast
      linarith
  rw [hfl, max_eq_left (by positivity), min_eq_left (by exact_mod_cast h)]
  exact Int.toNat_natCast n

theorem stripHash_no_hash (cs : List Char) (h : cs.head? ≠ some '#') :
    stripHash cs = cs := by
  cases cs with
  | nil => rfl
  | cons hd tl =>
    have hhd : hd ≠ '#' := fun e => h (by rw [e]; rfl)
    show (if hd = '#' then tl else hd :: tl) = hd :: tl
    rw [if_neg hhd]

theorem fromStr_hash6 (d1 d2 d3 d4 d5 d6 : Char)
    (h1 : isHexDigitC d1 = true) (h2 : isHexDigitC d2 = true)
    (h3 : isHexDigitC d3 = true) (h4 : isHexDigitC d4 = true)
    (h5 : isHexDigitC d5 = true) (h6 : isHexDigitC d6 = true) :
    Color.fromStr ['#', d1, d2, d3, d4, d5, d6] =
      .ok (Color.fromU8 (16 * hexVal d1 + hexVal d2) (16 * hexVal d3 + hexVal d4)
        (16 * hexVal d5 + hexVal d6) 255) := by
  simp [Color.fromStr, stripHash, h1, h2, h3, h4, h5, h6, List.getD]

theorem toHex_fromU8 (P : Palette) (r g b : ℕ)
    (hr : r ≤ 255) (hg : g ≤ 255) (hb : b ≤ 255) :
    (Color.fromU8 r g b 255).toHex P = '#' :: (byteHex r ++ byteHex g ++ byteHex b) := by
  simp only [Color.toHex, Color.fromU8, Color.toRgb, Color.normalize, Flt.orZero_fin,
    Color.toVec4U8, Color.toVec4, Vec4.get]
  rw [toU8_byte r hr, toU8_byte g hg, toU8_byte b hb, toU8_byte 255 le_rfl,
    if_neg (fun hh => hh rfl)]

/-- C3 (amended): a 6-digit hex string in the canonical form emitted by
`to_hex` — a `#` followed by six lowercase hex digits — parses to an Rgb
color whose alpha defaults to 1 (0xFF), and re-encoding yields the string
back; `from_u8(0xf6, 0x12, 0x43, 255).to_hex()` is `"#f61243"` with the
alpha suffix omitted. -/
theorem hex6_roundtrip :
    (∀ (P : Palette) (d1 d2 d3 d4 d5 d6 : Char),
      d1 ∈ lowHexDigits → d2 ∈ lowHexDigits → d3 ∈ lowHexDigits →
      d4 ∈ lowHexDigits → d5 ∈ lowHexDigits → d6 ∈ lowHexDigits →
      ∃ col : Color,
        Color.fromStr ['#', d1, d2, d3, d4, d5, d6] = .ok col ∧
        col.alpha = some (.fin 1) ∧
        col.toHex P = ['#', d1, d2, d3, d4, d5, d6]) ∧
    (∀ P : Palette,
      (Color.fromU8 0xf6 0x12 0x43 255).toHex P = ['#', 'f', '6', '1', '2', '4', '3']) := by
  constructor
  · intro P d1 d2 d3 d4 d5 d6 m1 m2 m3 m4 m5 m6
    obtain ⟨x1, v1, c1⟩ := lowHex_facts d1 m1
    obtain ⟨x2, v2, c2⟩ := lowHex_facts d2 m2
    obtain ⟨x3, v3, c3⟩ := lowHex_facts d3 m3
    obtain ⟨x4, v4, c4⟩ := lowHex_facts d4 m4
    obtain ⟨x5, v5, c5⟩ := lowHex_facts d5 m5
    obtain ⟨x6, v6, c6⟩ := lowHex_facts d6 m6
    refine ⟨_, fromStr_hash6 d1 d2 d3 d4 d5 d6 x1 x2 x3 x4 x5 x6, ?_, ?_⟩
    · show some (Flt.fin (((255 : ℕ) : ℚ) / 255)) = some (.fin 1)
      norm_num
    · rw [toHex_fromU8 P _ _ _ (by omega) (by omega) (by omega)]
      rw [byteHex_split _ _ v2, byteHex_split _ _ v4, byteHex_split _ _ v6]
      rw [c1, c2, c3, c4, c5, c6]
      rfl
  · intro P
    rw [toHex_fromU8 P 0xf6 0x12 0x43 (by norm_num) (by norm_num) (by norm_num)]
    decide

/-- Counterexample for C3 as frozen: `"#ABCDEF"` is a valid 6-digit hex
string (parsing is case-insensitive), but re-encoding yields the lowercase
`"#abcdef"`, not the original string. -/
theorem hex6_roundtrip_counterexample :
    (Color.fromStr ['#', 'A', 'B', 'C', 'D', 'E', 'F']).map (Color.toHex Palette.dummy) =
      .ok ['#', 'a', 'b', 'c', 'd', 'e', 'f'] ∧
    (['#', 'a', 'b', 'c', 'd', 'e', 'f'] : List Char) ≠
      ['#', 'A', 'B', 'C', 'D', 'E', 'F'] := by
  constructor
  · rw [fromStr_hash6 'A' 'B' 'C' 'D' 'E' 'F' (by decide) (by decide) (by decide)
      (by decide) (by decide) (by decide)]
    have e1 : 16 * hexVal 'A' + hexVal 'B' = 171 := by decide
    have e2 : 16 * hexVal 'C' + hexVal 'D' = 205 := by decide
    have e3 : 16 * hexVal 'E' + hexVal 'F' = 239 := by decide
    rw [e1, e2, e3]
    show Except.ok ((Color.fromU8 171 205 239 255).toHex Palette.dummy) = _
    rw [toHex_fromU8 Palette.dummy 171 205 239 (by norm_num) (by norm_num) (by norm_num)]
    have hlist : '#' :: (byteHex 171 ++ byteHex 205 ++ byteHex 239) =
        ['#', 'a', 'b', 'c', 'd', 'e', 'f'] := by decide
    rw [hlist]
  · decide

/-- Witness for C3: the round-trip statement applied to the digits of
`"#abcdef"`. -/
theorem hex6_roundtrip_witness :
    ∃ col : Color,
      Color.fromStr ['#', 'a', 'b', 'c', 'd', 'e', 'f'] = .ok col ∧
      col.alpha = some (.fin 1) ∧
      col.toHex Palette.dummy = ['#', 'a', 'b', 'c', 'd', 'e', 'f'] :=
  hex6_roundtrip.1 Palette.dummy 'a' 'b' 'c' 'd' 'e' 'f'
    (by decide) (by decide) (by decide) (by decide) (by decide) (by decide)

/-! ## C8 -/

theorem isHexDigitC_hash : isHexDigitC '#' = false := by decide

/-- C8: hex parsing strips one optional leading `#`, rejects any remaining
non-hex-digit character, accepts exactly the lengths 3, 4, 6, 8 and fails on
any other length, expands each shorthand digit `d` to the byte `d + d * 16`,
defaults a missing alpha to 0xFF (255), and always returns an Rgb-variant
color on success. -/
theorem from_str_spec :
    (∀ cs : List Char, cs.head? ≠ some '#' →
      Color.fromStr ('#' :: cs) = Color.fromStr cs) ∧
    (∀ cs : List Char, cs.head? ≠ some '#' →
      (∃ ch ∈ cs, isHexDigitC ch = false) →
      Color.fromStr cs = .error "color string contains non-hexadecimal letters") ∧
    (∀ cs : List Char, cs.head? ≠ some '#' →
      (∀ ch ∈ cs, isHexDigitC ch = true) →
      ¬(cs.length = 3 ∨ cs.length = 4 ∨ cs.length = 6 ∨ cs.length = 8) →
      Color.fromStr cs = .error "color string has wrong length") ∧
    (∀ a b c : Char,
      isHexDigitC a = true → isHexDigitC b = true → isHexDigitC c = true →
      Color.fromStr [a, b, c] = .ok (Color.fromU8 (hexVal a + hexVal a * 16)
        (hexVal b + hexVal b * 16) (hexVal c + hexVal c * 16) 255)) ∧
    (∀ a b c d : Char,
      isHexDigitC a = true → isHexDigitC b = true → isHexDigitC c = true →
      isHexDigitC d = true →
      Color.fromStr [a, b, c, d] = .ok (Color.fromU8 (hexVal a + hexVal a * 16)
        (hexVal b + hexVal b * 16) (hexVal c + hexVal c * 16)
        (hexVal d + hexVal d * 16))) ∧
    (∀ a b c d e f : Char,
      isHexDigitC a = true → isHexDigitC b = true → isHexDigitC c = true →
      isHexDigitC d = true → isHexDigitC e = true → isHexDigitC f = true →
      Color.fromStr [a, b, c, d, e, f] = .ok (Color.fromU8 (16 * hexVal a + hexVal b)
        (16 * hexVal c + hexVal d) (16 * hexVal e + hexVal f) 255)) ∧
    (∀ a b c d e f g h : Char,
      isHexDigitC a = true → isHexDigitC b = true → isHexDigitC c = true →
      isHexDigitC d = true → isHexDigitC e = true → isHexDigitC f = true →
      isHexDigitC g = true → isHexDigitC h = true →
      Color.fromStr [a, b, c, d, e, f, g, h] =
        .ok (Color.fromU8 (16 * hexVal a + hexVal b) (16 * hexVal c + hexVal d)
          (16 * hexVal e + hexVal f) (16 * hexVal g + hexVal h))) ∧
    (∀ (cs : List Char) (col : Color),
      Color.fromStr cs = .ok col → col.space = ColorSpace.Srgb) := by
  have hne : ∀ ch : Char, isHexDigitC ch = true → ch ≠ '#' := by
    intro ch hch e
    rw [e, isHexDigitC_hash] at hch
    cases hch
  refine ⟨?_, ?_, ?_, ?_, ?_, ?_, ?_, ?_⟩
  · intro cs h
    cases cs with
    | nil => rfl
    | cons hd tl =>
      have hhd : hd ≠ '#' := fun e => h (by rw [e]; rfl)
      simp [Color.fromStr, stripHash, hhd]
  · intro cs h ⟨ch, hm, hch⟩
    simp only [Color.fromStr]
    rw [stripHash_no_hash cs h,
      if_pos (List.any_eq_true.mpr ⟨ch, hm, by rw [hch]; rfl⟩)]
  · intro cs h hall hlen
    simp only [Color.fromStr]
    rw [stripHash_no_hash cs h]
    rw [if_neg (by
      intro hany
      obtain ⟨ch, hm, hch⟩ := List.any_eq_true.mp hany
      rw [hall ch hm] at hch
      cases hch)]
    rw [if_pos]
    have h3 : (cs.length == 3) = false := beq_eq_false_iff_ne.mpr fun e => hlen (Or.inl e)
    have h4 : (cs.length == 4) = false :=
      beq_eq_false_iff_ne.mpr fun e => hlen (Or.inr (Or.inl e))
    have h6 : (cs.length == 6) = false :=
      beq_eq_false_iff_ne.mpr fun e => hlen (Or.inr (Or.inr (Or.inl e)))
    have h8 : (cs.length == 8) = false :=
      beq_eq_false_iff_ne.mpr fun e => hlen (Or.inr (Or.inr (Or.inr e)))
    rw [h3, h4, h6, h8]
    rfl
  · intro a b c ha hb hc
    simp [Color.fromStr, stripHash, hne a ha, ha, hb, hc, List.getD]
  · intro a b c d ha hb hc hd
    simp [Color.fromStr, stripHash, hne a ha, ha, hb, hc, hd, List.getD]
  · intro a b c d e f ha hb hc hd he hf
    simp [Color.fromStr, stripHash, hne a ha, ha, hb, hc, hd, he, hf, List.getD]
  · intro a b c d e f g h ha hb hc hd he hf hg hh
    simp [Color.fromStr, stripHash, hne a ha, ha, hb, hc, hd, he, hf, hg, hh, List.getD]
  · intro cs col h
    simp only [Color.fromStr] at h
    split at h
    · cases h
    · split at h
      · cases h
      · cases h
        rfl

/-- Witness for C8: the 3-digit shorthand applied to `"abc"`, which parses
as `"aabbcc"` would. -/
theorem from_str_spec_witness :
    Color.fromStr ['a', 'b', 'c'] = .ok (Color.fromU8 (hexVal 'a' + hexVal 'a' * 16)
      (hexVal 'b' + hexVal 'b' * 16) (hexVal 'c' + hexVal 'c' * 16) 255) :=
  from_str_spec.2.2.2.1 'a' 'b' 'c' (by decide) (by decide) (by decide)

/-! ## Remaining witnesses -/

/-- Witness for C1: converting a concrete Rgb color to its own space is the
identity. -/
theorem toSpace_idem_and_self_witness :
    (Color.Rgb ⟨.fin 1, .fin 0, .fin 0, .fin 1⟩).toSpace Palette.dummy
        (Color.Rgb ⟨.fin 1, .fin 0, .fin 0, .fin 1⟩).space =
      Color.Rgb ⟨.fin 1, .fin 0, .fin 0, .fin 1⟩ :=
  (toSpace_idem_and_self Palette.dummy
    (Color.Rgb ⟨.fin 1, .fin 0, .fin 0, .fin 1⟩) ColorSpace.Hsl).2.1

/-- Witness for C6: the general-formula branch evaluated at `rgb(1, 0, 0)`. -/
theorem cmyk_from_rgba_naive_witness :
    CmykC.fromRgba ⟨.fin 1, .fin 0, .fin 0, .fin 1⟩ =
      ⟨.fin ((1 - 1 - 0) / (1 - 0)), .fin ((1 - 0 - 0) / (1 - 0)),
       .fin ((1 - 0 - 0) / (1 - 0)), .fin 0⟩ :=
  cmyk_from_rgba_naive.2.1 1 0 0 (.fin 1) 0
    (by rw [max_eq_left (by norm_num), max_eq_left (by norm_num)]; norm_num)
    (by norm_num)

/-- Witness for C7: `scale_alpha` evaluated on an opaque Rgb color with the
scale `-1/2`. -/
theorem scale_alpha_spec_witness :
    (Color.Rgb ⟨.fin 1, .fin 0, .fin 0, .fin 1⟩).scaleAlpha (-(1 / 2)) =
      .ok ((Color.Rgb ⟨.fin 1, .fin 0, .fin 0, .fin 1⟩).withAlpha
        (((Flt.fin 1).add ((Flt.fin (-(1 / 2))).mul
          (if 0 < (-(1 / 2) : ℚ) then (Flt.fin 1).sub (.fin 1) else .fin 1))).clamp 0 1)) :=
  scale_alpha_spec.1 (.Rgb ⟨.fin 1, .fin 0, .fin 0, .fin 1⟩) (-(1 / 2)) (.fin 1)
    (by intro hh; cases hh) rfl

/-- Witness for C9: the empty mix fails with the positive-weight-sum error. -/
theorem mix_error_spec_witness :
    mixIter Palette.dummy [] ColorSpace.Srgb =
      .error "sum of weights must be positive" :=
  ((mix_error_spec Palette.dummy [] ColorSpace.Srgb).2
    (fun hh => by have h2 := hh.2; simp only [List.length_nil] at h2; omega)).1
    (by simp only [sumWeights, List.foldl, Flt.leB_fin]; exact decide_eq_true le_rfl)

end Typst
